import Mathlib

/-!
Verification development for the dynamic Google-API client of the
`googleapis-module` repository.  The Go sources under
`components/dynamic-client/` (schema.go, client.go, enum.go) and the data
model in `objects.go` are shallowly embedded below: Go maps become
association lists (with the in-place-assignment semantics of `setKey`),
Go strings become `String`/`List Char` (byte-level operations are modelled
at the character level, which coincides with Go's behaviour on the ASCII
data handled here), and the networked parts (discovery fetches, the HTTP
round trip) are modelled by passing their results in explicitly.
-/

/-! ## JSON values

Go's `any` values produced by `json.Unmarshal` (and consumed by
`json.Marshal` / `fmt.Sprintf("%v", ...)`).  Go decodes JSON numbers to
`float64`; the model carries the numeric literal as written, which is
faithful for every computation the client performs on these values
(none of them inspect numbers).
-/

inductive JsonValue where
  | str (s : String)
  | num (lit : String)
  | bool (b : Bool)
  | null
  | arr (elems : List JsonValue)
  | obj (fields : List (String × JsonValue))

/-! ## Association-list maps

Go `map[string]T` with the semantics the client relies on: assignment
(`m[k] = v`) replaces an existing binding in place or appends a new one,
lookup returns the current binding.  Iteration order in the embedding is
the list order (Go's map iteration order is unspecified; the embedding
fixes one).
-/

def lookupKey {α : Type} : List (String × α) → String → Option α
  | [], _ => none
  | (k', v) :: rest, k => if k' = k then some v else lookupKey rest k

def setKey {α : Type} : List (String × α) → String → α → List (String × α)
  | [], k, v => [(k, v)]
  | (k', v') :: rest, k, v =>
      if k' = k then (k, v) :: rest else (k', v') :: setKey rest k v

def keysOf {α : Type} (m : List (String × α)) : List String := m.map Prod.fst

/-! ## Character-list utilities shared by the URL and JSON machinery -/

def beginsWith : List Char → List Char → Bool
  | [], _ => true
  | _ :: _, [] => false
  | a :: as, b :: bs => a = b && beginsWith as bs

def occursIn (pat : List Char) : List Char → Bool
  | [] => pat.isEmpty
  | c :: rest => beginsWith pat (c :: rest) || occursIn pat rest

/-- Fuel-driven core of `strings.ReplaceAll` (non-overlapping, left to
right).  The fuel argument makes the recursion structural so that the
function computes by kernel reduction; `replaceAll` supplies fuel equal to
the input length, which is always sufficient because each step consumes at
least one character. -/
def replaceAllFuel : Nat → List Char → List Char → List Char → List Char
  | 0, s, _, _ => s
  | fuel + 1, s, pat, repl =>
      match s with
      | [] => []
      | c :: rest =>
          if pat ≠ [] && beginsWith pat (c :: rest) then
            repl ++ replaceAllFuel fuel ((c :: rest).drop pat.length) pat repl
          else
            c :: replaceAllFuel fuel rest pat repl

/-- Go `strings.ReplaceAll s pat repl`.  The client never calls it with an
empty pattern (patterns are always brace-delimited placeholder names), so
the empty-pattern behaviour (Go would interleave `repl`) is irrelevant;
with `pat = []` this model returns `s` unchanged. -/
def replaceAll (s pat repl : List Char) : List Char :=
  replaceAllFuel s.length s pat repl

def expandChars (f : Char → List Char) (s : List Char) : List Char :=
  s.foldr (fun c acc => f c ++ acc) []

/-! ## Go `net/url` escaping

Transcribed from `net/url.shouldEscape` for the `encodePathSegment` and
`encodeQueryComponent` modes (the two modes the client uses, via
`url.PathEscape` and `url.Values.Encode`).  Characters are treated as
bytes; the data escaped by the client is ASCII.
-/

def isAlphaNumCh (c : Char) : Bool :=
  let n := c.toNat
  (97 ≤ n && n ≤ 122) || (65 ≤ n && n ≤ 90) || (48 ≤ n && n ≤ 57)

def isUnreservedMark (c : Char) : Bool :=
  c = '-' || c = '_' || c = '.' || c = '~'

def isReservedCh (c : Char) : Bool :=
  c = '$' || c = '&' || c = '+' || c = ',' || c = '/' || c = ':' ||
  c = ';' || c = '=' || c = '?' || c = '@'

def shouldEscapePathSegment (c : Char) : Bool :=
  if isAlphaNumCh c then false
  else if isUnreservedMark c then false
  else if isReservedCh c then (c = '/' || c = ';' || c = ',' || c = '?')
  else true

def shouldEscapeQueryComponent (c : Char) : Bool :=
  if isAlphaNumCh c then false
  else if isUnreservedMark c then false
  else true

def upperHexDigit (n : Nat) : Char := "0123456789ABCDEF".data.getD n '0'

def percentEncodeCh (c : Char) : List Char :=
  ['%', upperHexDigit (c.toNat / 16), upperHexDigit (c.toNat % 16)]

/-- Go `url.PathEscape` (mode `encodePathSegment`). -/
def pathEscape (s : List Char) : List Char :=
  expandChars (fun c => if shouldEscapePathSegment c then percentEncodeCh c else [c]) s

/-- Go `url.QueryEscape` (mode `encodeQueryComponent`): space becomes `+`. -/
def queryEscape (s : List Char) : List Char :=
  expandChars
    (fun c =>
      if shouldEscapeQueryComponent c then
        if c = ' ' then ['+'] else percentEncodeCh c
      else [c]) s

/-! ## Key-sorted rendering (Go sorts map keys in `url.Values.Encode`,
`encoding/json.Marshal` and `fmt` map printing; byte-wise lexicographic) -/

def charListLe : List Char → List Char → Bool
  | [], _ => true
  | _ :: _, [] => false
  | a :: as, b :: bs =>
      if a.toNat < b.toNat then true
      else if b.toNat < a.toNat then false
      else charListLe as bs

def insertByKey {α : Type} (x : String × α) : List (String × α) → List (String × α)
  | [] => [x]
  | y :: ys => if charListLe x.1.data y.1.data then x :: y :: ys else y :: insertByKey x ys

def sortByKey {α : Type} (l : List (String × α)) : List (String × α) :=
  l.foldr insertByKey []

def joinWith (sep : List Char) : List (List Char) → List Char
  | [] => []
  | [x] => x
  | x :: y :: ys => x ++ sep ++ joinWith sep (y :: ys)

/-! ## JSON serialization (goccy/go-json `Marshal`, drop-in compatible
with `encoding/json`): map keys sorted, strings quoted with the standard
escapes and HTML-safe escaping of `<`, `>`, `&`. -/

def jsonEscapeCh (c : Char) : List Char :=
  if c = '"' then ['\\', '"']
  else if c = '\\' then ['\\', '\\']
  else if c = '\n' then ['\\', 'n']
  else if c = '\r' then ['\\', 'r']
  else if c = '\t' then ['\\', 't']
  else if c.toNat < 32 then
    "\\u00".data ++ [upperHexDigit (c.toNat / 16), upperHexDigit (c.toNat % 16)]
  else if c = '<' then "\\u003c".data
  else if c = '>' then "\\u003e".data
  else if c = '&' then "\\u0026".data
  else [c]

def jsonQuote (s : List Char) : List Char :=
  '"' :: expandChars jsonEscapeCh s ++ ['"']

mutual

/-- Serialize one JSON value.  Object fields are rendered first and the
rendered pairs sorted by key afterwards, which yields exactly Go's
key-sorted object encoding while keeping the recursion structural. -/
def serializeVal : JsonValue → List Char
  | .null => "null".data
  | .bool true => "true".data
  | .bool false => "false".data
  | .num lit => lit.data
  | .str s => jsonQuote s.data
  | .arr es => '[' :: joinWith [','] (serializeElems es) ++ [']']
  | .obj fs =>
      '{' :: joinWith [','] ((sortByKey (serializeFields fs)).map Prod.snd) ++ ['}']

def serializeElems : List JsonValue → List (List Char)
  | [] => []
  | v :: vs => serializeVal v :: serializeElems vs

def serializeFields : List (String × JsonValue) → List (String × List Char)
  | [] => []
  | (k, v) :: fs => (k, jsonQuote k.data ++ ':' :: serializeVal v) :: serializeFields fs

end

def jsonMarshalObj (fields : List (String × JsonValue)) : List Char :=
  serializeVal (.obj fields)

/-! ## `fmt.Sprintf("%v", x)` on decoded JSON values -/

mutual

def goSprintChars : JsonValue → List Char
  | .null => "<nil>".data
  | .bool true => "true".data
  | .bool false => "false".data
  | .num lit => lit.data
  | .str s => s.data
  | .arr es => '[' :: joinWith [' '] (goSprintElems es) ++ [']']
  | .obj fs =>
      "map[".data ++ joinWith [' '] ((sortByKey (goSprintFields fs)).map Prod.snd) ++ [']']

def goSprintElems : List JsonValue → List (List Char)
  | [] => []
  | v :: vs => goSprintChars v :: goSprintElems vs

def goSprintFields : List (String × JsonValue) → List (String × List Char)
  | [] => []
  | (k, v) :: fs => (k, k.data ++ ':' :: goSprintChars v) :: goSprintFields fs

end

def goSprintV (v : JsonValue) : String :=
  String.mk (goSprintChars v)

/-! ## JSON parsing (`json.Unmarshal` into `any`)

A recursive-descent parser over the character list, fuelled by the input
length so that it is structurally recursive and computes by reduction.
Number literals are recognised by a character-class scan with a light
validity check — the client never inspects numbers, so this level of
faithfulness suffices for every property proved below.
-/

def isWsChar (c : Char) : Bool :=
  c = ' ' || c = '\t' || c = '\n' || c = '\r'

def skipWs : List Char → List Char
  | [] => []
  | c :: rest => if isWsChar c then skipWs rest else c :: rest

def hexVal (c : Char) : Option Nat :=
  let n := c.toNat
  if 48 ≤ n && n ≤ 57 then some (n - 48)
  else if 97 ≤ n && n ≤ 102 then some (n - 87)
  else if 65 ≤ n && n ≤ 70 then some (n - 55)
  else none

def scanStringFuel : Nat → List Char → Option (String × List Char)
  | 0, _ => none
  | fuel + 1, input =>
      match input with
      | [] => none
      | c :: rest =>
          if c = '"' then some ("", rest)
          else if c = '\\' then
            match rest with
            | [] => none
            | e :: rest2 =>
                if e = 'u' then
                  match rest2 with
                  | h1 :: h2 :: h3 :: h4 :: rest3 =>
                      match hexVal h1, hexVal h2, hexVal h3, hexVal h4 with
                      | some a, some b, some c3, some d =>
                          match scanStringFuel fuel rest3 with
                          | some (s, rem) =>
                              some (String.mk (Char.ofNat (((a * 16 + b) * 16 + c3) * 16 + d) :: s.data), rem)
                          | none => none
                      | _, _, _, _ => none
                  | _ => none
                else
                  match (if e = '"' then some '"'
                         else if e = '\\' then some '\\'
                         else if e = '/' then some '/'
                         else if e = 'n' then some '\n'
                         else if e = 't' then some '\t'
                         else if e = 'r' then some '\r'
                         else if e = 'b' then some (Char.ofNat 8)
                         else if e = 'f' then some (Char.ofNat 12)
                         else none) with
                  | some d =>
                      match scanStringFuel fuel rest2 with
                      | some (s, rem) => some (String.mk (d :: s.data), rem)
                      | none => none
                  | none => none
          else
            match scanStringFuel fuel rest with
            | some (s, rem) => some (String.mk (c :: s.data), rem)
            | none => none

def isNumCh (c : Char) : Bool :=
  c.isDigit || c = '-' || c = '+' || c = '.' || c = 'e' || c = 'E'

def spanNum : List Char → List Char × List Char
  | [] => ([], [])
  | c :: rest =>
      if isNumCh c then
        let (taken, rem) := spanNum rest
        (c :: taken, rem)
      else ([], c :: rest)

def validNum : List Char → Bool
  | [] => false
  | c :: rest => (c.isDigit || c = '-') && (c :: rest).any Char.isDigit

mutual

def parseValueFuel : Nat → List Char → Option (JsonValue × List Char)
  | 0, _ => none
  | fuel + 1, input =>
      match skipWs input with
      | [] => none
      | c :: rest =>
          if c = '"' then
            match scanStringFuel (rest.length + 1) rest with
            | some (s, rem) => some (.str s, rem)
            | none => none
          else if c = '{' then
            match skipWs rest with
            | '}' :: rem => some (.obj [], rem)
            | _ =>
              match parseMembersFuel fuel (skipWs rest) with
              | some (fs, rem) => some (.obj fs, rem)
              | none => none
          else if c = '[' then
            match skipWs rest with
            | ']' :: rem => some (.arr [], rem)
            | _ =>
              match parseElemsFuel fuel (skipWs rest) with
              | some (es, rem) => some (.arr es, rem)
              | none => none
          else if c = 't' then
            match rest with
            | 'r' :: 'u' :: 'e' :: rem => some (.bool true, rem)
            | _ => none
          else if c = 'f' then
            match rest with
            | 'a' :: 'l' :: 's' :: 'e' :: rem => some (.bool false, rem)
            | _ => none
          else if c = 'n' then
            match rest with
            | 'u' :: 'l' :: 'l' :: rem => some (.null, rem)
            | _ => none
          else
            let (numCs, rem) := spanNum (c :: rest)
            if validNum numCs then some (.num (String.mk numCs), rem) else none

def parseMembersFuel : Nat → List Char → Option (List (String × JsonValue) × List Char)
  | 0, _ => none
  | fuel + 1, input =>
      match input with
      | '"' :: rest =>
          match scanStringFuel (rest.length + 1) rest with
          | some (k, rem) =>
              match skipWs rem with
              | ':' :: rem2 =>
                  match parseValueFuel fuel rem2 with
                  | some (v, rem3) =>
                      match skipWs rem3 with
                      | ',' :: rem4 =>
                          match parseMembersFuel fuel (skipWs rem4) with
                          | some (fs, rem5) => some ((k, v) :: fs, rem5)
                          | none => none
                      | '}' :: rem4 => some ([(k, v)], rem4)
                      | _ => none
                  | none => none
              | _ => none
          | none => none
      | _ => none

def parseElemsFuel : Nat → List Char → Option (List JsonValue × List Char)
  | 0, _ => none
  | fuel + 1, input =>
      match parseValueFuel fuel input with
      | some (v, rem) =>
          match skipWs rem with
          | ',' :: rem2 =>
              match parseElemsFuel fuel rem2 with
              | some (es, rem3) => some (v :: es, rem3)
              | none => none
          | ']' :: rem2 => some ([v], rem2)
          | _ => none
      | none => none

end

def jsonParse (s : String) : Option JsonValue :=
  match parseValueFuel (s.data.length + 1) s.data with
  | some (v, rest) => if skipWs rest = [] then some v else none
  | none => none

/-! ## Google Discovery data model (`objects.go`)

Only the fields the dynamic client reads are modelled.  Absent optional
strings are `""` (Go's zero value), exactly as the Go code tests them.
`Schema` and `Parameter` are recursive, so they are single-constructor
inductives with explicit accessors.
-/

/-- `Schema` from objects.go: a node of the (possibly cyclic, via `$ref`)
schema graph of one API specification. -/
inductive GSchema where
  | mk (id : String) (type : String) (ref : String) (description : String)
       (dflt : Option JsonValue) (format : String)
       (enum : List String) (enumDescriptions : List String) (pattern : String)
       (properties : List (String × GSchema))
       (additionalProperties : Option GSchema)
       (items : Option GSchema)

def GSchema.id : GSchema → String
  | .mk v _ _ _ _ _ _ _ _ _ _ _ => v

def GSchema.type : GSchema → String
  | .mk _ v _ _ _ _ _ _ _ _ _ _ => v

def GSchema.ref : GSchema → String
  | .mk _ _ v _ _ _ _ _ _ _ _ _ => v

def GSchema.description : GSchema → String
  | .mk _ _ _ v _ _ _ _ _ _ _ _ => v

def GSchema.dflt : GSchema → Option JsonValue
  | .mk _ _ _ _ v _ _ _ _ _ _ _ => v

def GSchema.format : GSchema → String
  | .mk _ _ _ _ _ v _ _ _ _ _ _ => v

def GSchema.enum : GSchema → List String
  | .mk _ _ _ _ _ _ v _ _ _ _ _ => v

def GSchema.enumDescriptions : GSchema → List String
  | .mk _ _ _ _ _ _ _ v _ _ _ _ => v

def GSchema.pattern : GSchema → String
  | .mk _ _ _ _ _ _ _ _ v _ _ _ => v

def GSchema.properties : GSchema → List (String × GSchema)
  | .mk _ _ _ _ _ _ _ _ _ v _ _ => v

def GSchema.additionalProperties : GSchema → Option GSchema
  | .mk _ _ _ _ _ _ _ _ _ _ v _ => v

def GSchema.items : GSchema → Option GSchema
  | .mk _ _ _ _ _ _ _ _ _ _ _ v => v

/-- `Parameter` from objects.go. -/
inductive GParameter where
  | mk (type : String) (description : String) (location : String)
       (required : Bool) (dflt : String)
       (enum : List String) (enumDescriptions : List String)
       (format : String) (pattern : String)
       (items : Option GParameter)

def GParameter.type : GParameter → String
  | .mk v _ _ _ _ _ _ _ _ _ => v

def GParameter.description : GParameter → String
  | .mk _ v _ _ _ _ _ _ _ _ => v

def GParameter.location : GParameter → String
  | .mk _ _ v _ _ _ _ _ _ _ => v

def GParameter.required : GParameter → Bool
  | .mk _ _ _ v _ _ _ _ _ _ => v

def GParameter.dflt : GParameter → String
  | .mk _ _ _ _ v _ _ _ _ _ => v

def GParameter.enum : GParameter → List String
  | .mk _ _ _ _ _ v _ _ _ _ => v

def GParameter.enumDescriptions : GParameter → List String
  | .mk _ _ _ _ _ _ v _ _ _ => v

def GParameter.format : GParameter → String
  | .mk _ _ _ _ _ _ _ v _ _ => v

def GParameter.pattern : GParameter → String
  | .mk _ _ _ _ _ _ _ _ v _ => v

def GParameter.items : GParameter → Option GParameter
  | .mk _ _ _ _ _ _ _ _ _ v => v

/-- `SchemaRef` from objects.go. -/
structure SchemaRef where
  ref : String
  parameterName : String := ""

/-- `Method` from objects.go (the fields the dynamic client reads). -/
structure GMethod where
  id : String := ""
  path : String := ""
  flatPath : String := ""
  httpMethod : String := ""
  description : String := ""
  parameters : List (String × GParameter) := []
  request : Option SchemaRef := none
  response : Option SchemaRef := none

/-- `API` from objects.go (the fields the dynamic client reads: base-URL
parts and the named schema table).  The resource tree is consumed only by
`GetAllMethods`, whose result — the resolved `Method` — is what the
embedded operations receive directly. -/
structure API where
  name : String := ""
  baseUrl : String := ""
  rootUrl : String := ""
  servicePath : String := ""
  schemas : List (String × GSchema) := []

/-! ## JSON-schema output (`swaggest/jsonschema-go` `Schema`, as the
client populates it)

The client sets at most one type per node (`AddType`), so the type slot is
an `Option String`.  `WithProperties` is called only for non-empty maps,
so a `nil` properties map and an absent one are distinguished with
`Option`.  The `configurable` / `enumTitles` extra properties are the only
extras ever set.
-/

inductive JSONSchema where
  | mk (typ : Option String) (description : Option String)
       (format : Option String) (pattern : Option String)
       (dflt : Option JsonValue)
       (enum : List String) (enumTitles : List String) (required : List String)
       (properties : Option (List (String × JSONSchema)))
       (additionalProps : Option JSONSchema)
       (items : Option JSONSchema)
       (configurable : Bool)

def JSONSchema.typ : JSONSchema → Option String
  | .mk v _ _ _ _ _ _ _ _ _ _ _ => v

def JSONSchema.description : JSONSchema → Option String
  | .mk _ v _ _ _ _ _ _ _ _ _ _ => v

def JSONSchema.format : JSONSchema → Option String
  | .mk _ _ v _ _ _ _ _ _ _ _ _ => v

def JSONSchema.pattern : JSONSchema → Option String
  | .mk _ _ _ v _ _ _ _ _ _ _ _ => v

def JSONSchema.dflt : JSONSchema → Option JsonValue
  | .mk _ _ _ _ v _ _ _ _ _ _ _ => v

def JSONSchema.enum : JSONSchema → List String
  | .mk _ _ _ _ _ v _ _ _ _ _ _ => v

def JSONSchema.enumTitles : JSONSchema → List String
  | .mk _ _ _ _ _ _ v _ _ _ _ _ => v

def JSONSchema.required : JSONSchema → List String
  | .mk _ _ _ _ _ _ _ v _ _ _ _ => v

def JSONSchema.properties : JSONSchema → Option (List (String × JSONSchema))
  | .mk _ _ _ _ _ _ _ _ v _ _ _ => v

def JSONSchema.additionalProps : JSONSchema → Option JSONSchema
  | .mk _ _ _ _ _ _ _ _ _ v _ _ => v

def JSONSchema.items : JSONSchema → Option JSONSchema
  | .mk _ _ _ _ _ _ _ _ _ _ v _ => v

def JSONSchema.configurable : JSONSchema → Bool
  | .mk _ _ _ _ _ _ _ _ _ _ _ v => v

/-- The opaque-object placeholder: a bare `{"type":"object"}` schema, as
returned by the early exits of `schemaToJSONSchema` (depth cut, visited
reference, unresolved reference). -/
def placeholderObject : JSONSchema :=
  .mk (some "object") none none none none [] [] [] none none none false

/-! ## Schema converter (`schema.go`)

`SchemaConverter` carries the owning `API`, `maxDepth = 10` (set by
`NewSchemaConverter`) and the mutable `visited` set.  The visited set is
threaded explicitly: each conversion returns the updated set, mirroring
the in-place mutation of `c.visited`.
-/

def maxDepth : Nat := 10

abbrev Visited := List String

/-- Common tail of `schemaToJSONSchema` (description, default, enum,
enumTitles, format, pattern, `configurable = true`), applied to every
non-early-return result. -/
def finishSchema (g : GSchema) (typ : Option String)
    (props : Option (List (String × JSONSchema)))
    (addP : Option JSONSchema) (items : Option JSONSchema) : JSONSchema :=
  .mk typ
    (if g.description = "" then none else some g.description)
    (if g.format = "" then none else some g.format)
    (if g.pattern = "" then none else some g.pattern)
    g.dflt
    g.enum
    (if g.enum = [] then [] else g.enumDescriptions)
    []
    props addP items true

/-- Convert a property list, threading the visited set left to right —
the `for name, prop := range` loops of schema.go, which mutate
`c.visited` across iterations.  The list order stands for one possible
range order; Go randomizes that order per range statement, and the
result genuinely depends on it (a shared reference collapses to the
placeholder for whichever sibling is visited second — exhibited by C1's
order-dependence counterexample on two permutations of the same map). -/
def convertPropsWith (f : GSchema → Nat → Visited → JSONSchema × Visited) :
    List (String × GSchema) → Nat → Visited → List (String × JSONSchema) × Visited
  | [], _, visited => ([], visited)
  | (n, p) :: rest, depth, visited =>
      let (s, visited') := f p depth visited
      let (others, visited'') := convertPropsWith f rest depth visited'
      ((n, s) :: others, visited'')

/-- Fuel-driven core of `SchemaConverter.schemaToJSONSchema`.  Every
recursive call of the Go function increases `depth` by one and the
`depth > maxDepth` guard stops the recursion, so running with
`fuel = maxDepth + 2 - depth` (see `schemaToJSONSchema`) never exhausts
the fuel before the guard fires; the fuel-exhausted branch returns the
same placeholder as the guard, making the two definitions agree at every
depth. -/
def schemaToJSONSchemaFuel : Nat → API → GSchema → Nat → Visited → JSONSchema × Visited
  | 0, _, _, _, visited => (placeholderObject, visited)
  | fuel + 1, api, g, depth, visited =>
      if depth > maxDepth then (placeholderObject, visited)
      else if g.ref = "" then
        let conv :
            (Option String × Option (List (String × JSONSchema)) ×
              Option JSONSchema × Option JSONSchema) × Visited :=
          if g.type = "object" then
            let pv :=
              if g.properties.isEmpty then (none, visited)
              else
                let (ps, v') := convertPropsWith (schemaToJSONSchemaFuel fuel api)
                  g.properties (depth + 1) visited
                (some ps, v')
            match g.additionalProperties with
            | some ap =>
                let (aps, v2) := schemaToJSONSchemaFuel fuel api ap (depth + 1) pv.2
                ((some "object", pv.1, some aps, none), v2)
            | none => ((some "object", pv.1, none, none), pv.2)
          else if g.type = "array" then
            match g.items with
            | some it =>
                let (its, v') := schemaToJSONSchemaFuel fuel api it (depth + 1) visited
                ((some "array", none, none, some its), v')
            | none => ((some "array", none, none, none), visited)
          else if g.type = "string" then ((some "string", none, none, none), visited)
          else if g.type = "integer" then ((some "integer", none, none, none), visited)
          else if g.type = "number" then ((some "number", none, none, none), visited)
          else if g.type = "boolean" then ((some "boolean", none, none, none), visited)
          else if g.type = "any" then ((none, none, none, none), visited)
          else if g.type = "" then ((none, none, none, none), visited)
          else ((some "string", none, none, none), visited)
        (finishSchema g conv.1.1 conv.1.2.1 conv.1.2.2.1 conv.1.2.2.2, conv.2)
      else if visited.contains g.ref then (placeholderObject, visited)
      else
        let visited' := g.ref :: visited
        match lookupKey api.schemas g.ref with
        | some rs => schemaToJSONSchemaFuel fuel api rs (depth + 1) visited'
        | none => (placeholderObject, visited')

/-- `SchemaConverter.schemaToJSONSchema` (schema.go, lines 224–325). -/
def schemaToJSONSchema (api : API) (g : GSchema) (depth : Nat) (visited : Visited) :
    JSONSchema × Visited :=
  schemaToJSONSchemaFuel (maxDepth + 2 - depth) api g depth visited

/-- `SchemaConverter.parameterToSchema` (schema.go, lines 161–221). -/
def parameterToSchema : GParameter → JSONSchema
  | .mk t d _ _ df e ed f pa items =>
      let ti : Option String × Option JSONSchema :=
        if t = "string" then (some "string", none)
        else if t = "integer" then (some "integer", none)
        else if t = "number" then (some "number", none)
        else if t = "boolean" then (some "boolean", none)
        else if t = "array" then
          (some "array",
            match items with
            | some ip => some (parameterToSchema ip)
            | none => none)
        else (some "string", none)
      .mk ti.1
        (if d = "" then none else some d)
        (if f = "" then none else some f)
        (if pa = "" then none else some pa)
        (if df = "" then none else some (.str df))
        e
        (if e = [] then [] else ed)
        []
        none none ti.2 true

/-- `DynamicSchema` from schema.go: the sample-data map plus the
pre-computed JSON schema. -/
structure DynSchema where
  data : List (String × JsonValue)
  schemaData : Option JSONSchema

/-! ## `SchemaConverter.BuildRequestSchema` (schema.go, lines 57–104) -/

/-- The path/query parameters of the method, each converted and written
into the `properties` map (first loop of `BuildRequestSchema`). -/
def requestParamProps (m : GMethod) : List (String × JSONSchema) :=
  m.parameters.foldl (fun acc nv => setKey acc nv.1 (parameterToSchema nv.2)) []

/-- The `required` list accumulated by the first loop of
`BuildRequestSchema` (Go assigns it to the schema only when non-empty; an
empty list and an absent one coincide in this model). -/
def requestRequired (m : GMethod) : List String :=
  m.parameters.foldl (fun acc nv => if nv.2.required then acc ++ [nv.1] else acc) []

/-- The top-level properties of the converted request-body schema
(`schemaToJSONSchema(bodySchema, 0)` with a freshly reset visited set);
`[]` when the method declares no request reference or it does not resolve
(Go additionally distinguishes a `nil` property map, which merges the same
zero entries). -/
def requestBodyProps (api : API) (m : GMethod) : List (String × JSONSchema) :=
  match m.request with
  | some r =>
      if r.ref = "" then []
      else
        match lookupKey api.schemas r.ref with
        | some bodySchema => ((schemaToJSONSchema api bodySchema 0 []).1.properties).getD []
        | none => []
  | none => []

/-- The merged flat property map of `BuildRequestSchema`: parameters
first, then the body's top-level properties written over them with map
assignment (so a body property overwrites a same-named parameter). -/
def requestProps (api : API) (m : GMethod) : List (String × JSONSchema) :=
  (requestBodyProps api m).foldl (fun acc nv => setKey acc nv.1 nv.2) (requestParamProps m)

/-- The sample-data map of `BuildRequestSchema`: `nil` per parameter, the
`_requestBodyRef` marker when a request reference is declared, `nil` per
flattened body property. -/
def requestSample (api : API) (m : GMethod) : List (String × JsonValue) :=
  let base := m.parameters.foldl (fun acc nv => setKey acc nv.1 JsonValue.null) []
  match m.request with
  | some r =>
      if r.ref = "" then base
      else
        let base2 := setKey base "_requestBodyRef" (.str r.ref)
        match lookupKey api.schemas r.ref with
        | some _ =>
            (requestBodyProps api m).foldl (fun acc nv => setKey acc nv.1 JsonValue.null) base2
        | none => base2
  | none => base

/-- `SchemaConverter.BuildRequestSchema`. -/
def BuildRequestSchema (api : API) (m : GMethod) : DynSchema :=
  { data := requestSample api m
    schemaData := some (.mk (some "object") none none none none [] []
      (requestRequired m)
      (if (requestProps api m).isEmpty then none else some (requestProps api m))
      none none true) }

/-! ## `SchemaConverter.BuildResponseSchema` (schema.go, lines 107–158) -/

/-- The informational empty-object result for a method with no declared
response schema. -/
def responseInfoSchema : DynSchema :=
  { data := [("_info", .str "No response schema defined")]
    schemaData := some (.mk (some "object")
      (some "No response schema defined for this method")
      none none none [] [] [] none none none false) }

/-- The top-level properties of the produced response schema: each
property of the resolved response schema converted at depth 0, with one
visited set shared across the whole loop (Go resets `c.visited` once,
before the loop). -/
def responseProps (api : API) (m : GMethod) : List (String × JSONSchema) :=
  match m.response with
  | some r =>
      if r.ref = "" then []
      else
        match lookupKey api.schemas r.ref with
        | some rs => (convertPropsWith (schemaToJSONSchema api) rs.properties 0 []).1
        | none => []
  | none => []

/-- Independent-conversion reading of response-schema synthesis, for
comparison with the implementation: every top-level property converted on
its own, each with a fresh per-pass visited set.  This follows the spec's
words "the produced schema's properties are exactly the conversions of
the response schema's own top-level properties". -/
def responsePropsIndependent (api : API) (rs : GSchema) : List (String × JSONSchema) :=
  rs.properties.map (fun nv => (nv.1, (schemaToJSONSchema api nv.2 0 []).1))

/-- `SchemaConverter.BuildResponseSchema`. -/
def BuildResponseSchema (api : API) (m : GMethod) : DynSchema :=
  match m.response with
  | none => responseInfoSchema
  | some r =>
      if r.ref = "" then responseInfoSchema
      else
        match lookupKey api.schemas r.ref with
        | none =>
            { data := [("_error", .str ("Schema not found: " ++ r.ref))]
              schemaData := some (.mk (some "object")
                (some ("Response schema not found: " ++ r.ref))
                none none none [] [] [] none none none false) }
        | some rs =>
            let props := (convertPropsWith (schemaToJSONSchema api) rs.properties 0 []).1
            { data := rs.properties.foldl (fun acc nv => setKey acc nv.1 JsonValue.null) []
              schemaData := some (.mk (some "object")
                (if rs.description = "" then none else some rs.description)
                none none none [] [] []
                (if props.isEmpty then none else some props)
                none none false) }

/-! ## Request assembler & executor (`client.go`, `executeRequest`)

The pure assembly pipeline of `executeRequest` (lines 446–511): partition
the caller-supplied values by declared parameter location, substitute path
placeholders, encode the query string, and build the optional JSON body.
The HTTP round trip itself is network I/O; its outcome is passed to
`performCall` explicitly.
-/

/-- Partition step, path bucket: values whose key is declared with
location `"path"` (first branch of the partition loop, lines 450–464). -/
def stagePathParams (m : GMethod) (data : List (String × JsonValue)) :
    List (String × String) :=
  data.foldl
    (fun acc nv =>
      match lookupKey m.parameters nv.1 with
      | some p => if p.location = "path" then setKey acc nv.1 (goSprintV nv.2) else acc
      | none => acc) []

/-- Partition step, query bucket: declared query parameters and every
undeclared key (`queryParams.Set` in both the `location == "query"` branch
and the unknown-parameter branch). -/
def stageQueryParams (m : GMethod) (data : List (String × JsonValue)) :
    List (String × String) :=
  data.foldl
    (fun acc nv =>
      match lookupKey m.parameters nv.1 with
      | some p => if p.location = "path" then acc else setKey acc nv.1 (goSprintV nv.2)
      | none => setKey acc nv.1 (goSprintV nv.2)) []

/-- Body candidates (lines 482–491): keys that are undeclared or declared
with a location other than `"path"`/`"query"`, kept with their raw values. -/
def bodyCandidates (m : GMethod) (data : List (String × JsonValue)) :
    List (String × JsonValue) :=
  data.foldl
    (fun acc nv =>
      match lookupKey m.parameters nv.1 with
      | some p =>
          if p.location ≠ "path" ∧ p.location ≠ "query" then setKey acc nv.1 nv.2 else acc
      | none => setKey acc nv.1 nv.2) []

/-- `flatPath` if non-empty, else `path` (lines 441–444). -/
def methodPathOf (m : GMethod) : String :=
  if m.flatPath = "" then m.path else m.flatPath

/-- One iteration of the substitution loop (lines 467–470): replace
`{name}` by the percent-encoded value, then `{+name}` by the raw value. -/
def substOne (p : List Char) (name value : List Char) : List Char :=
  replaceAll (replaceAll p ('{' :: (name ++ ['}'])) (pathEscape value))
    ('{' :: '+' :: (name ++ ['}'])) value

/-- The substitution loop over all staged path parameters. -/
def substitutePathParams (p : List Char) (pathParams : List (String × String)) :
    List Char :=
  pathParams.foldl (fun acc nv => substOne acc nv.1.data nv.2.data) p

/-- `api.BaseUrl`, falling back to `RootUrl + ServicePath` (lines 426–429). -/
def baseURLOf (api : API) : String :=
  if api.baseUrl = "" then api.rootUrl ++ api.servicePath else api.baseUrl

/-- `url.Values.Encode`: keys sorted, each `k=v` pair query-escaped and
joined with `&` (each key holds a single value here, since the map is
populated with `Set`). -/
def encodeQueryValues (vs : List (String × String)) : List Char :=
  joinWith ['&']
    ((sortByKey vs).map (fun kv => queryEscape kv.1.data ++ '=' :: queryEscape kv.2.data))

/-- The assembled URL (lines 472–476): base URL plus substituted path,
plus `?` and the encoded query when any query parameter is present. -/
def fullURLOf (api : API) (m : GMethod) (data : List (String × JsonValue)) : List Char :=
  (baseURLOf api).data ++
    substitutePathParams (methodPathOf m).data (stagePathParams m data) ++
    (if (stageQueryParams m data).isEmpty then []
     else '?' :: encodeQueryValues (stageQueryParams m data))

def mutatingVerb (verb : String) : Bool :=
  verb = "POST" || verb = "PUT" || verb = "PATCH"

/-- The serialized request body (lines 478–500): for POST/PUT/PATCH the
body candidates marshalled as a JSON object, but only when at least one
candidate exists — otherwise `bodyReader` stays `nil` and no body is sent. -/
def bodySerializedOf (m : GMethod) (data : List (String × JsonValue)) :
    Option (List Char) :=
  if mutatingVerb m.httpMethod then
    let bd := bodyCandidates m data
    if bd.isEmpty then none else some (jsonMarshalObj bd)
  else none

/-! ## Response handling (`executeRequest`, lines 513–566) -/

/-- The outcome of `client.Do` plus body read: status, headers, raw body
bytes.  Transport failures are the `Except.error` case of `performCall`'s
argument. -/
structure HttpResult where
  status : Nat
  headers : List (String × List String)
  body : String

/-- The error taxonomy distinguishable in `executeRequest`'s results: a
transport failure (`"request failed: %w"`) versus a completed call with
error status (`"API error %d: %v"`, carrying the status code and the
parsed-or-raw body). -/
inductive ExecError where
  | transport (msg : String)
  | apiStatus (code : Nat) (body : Option JsonValue)

/-- The success value: `Response{StatusCode, Headers, Body}` with the
body coerced to a map (non-object bodies are wrapped under `"data"`). -/
structure GoResponse where
  statusCode : Nat
  headers : List (String × JsonValue)
  body : List (String × JsonValue)

/-- Body decoding (lines 527–534): empty body stays `nil`; otherwise JSON
when it parses, the raw text as a string value when it does not. -/
def decodeBody (raw : String) : Option JsonValue :=
  if raw.data.isEmpty then none
  else
    match jsonParse raw with
    | some v => some v
    | none => some (.str raw)

/-- Header conversion (lines 536–544): single-valued headers become the
value, multi-valued ones the list. -/
def convertHeaders (hs : List (String × List String)) : List (String × JsonValue) :=
  hs.map (fun kv =>
    match kv.2 with
    | [v] => (kv.1, JsonValue.str v)
    | vs => (kv.1, JsonValue.arr (vs.map JsonValue.str)))

/-- Processing of a completed HTTP call (lines 521–566): decode the body,
convert headers, report `StatusCode >= 400` as an API-status error, and
otherwise return the success response. -/
def processResponse (res : HttpResult) : Except ExecError GoResponse :=
  let bodyData := decodeBody res.body
  let headers := convertHeaders res.headers
  if res.status ≥ 400 then .error (.apiStatus res.status bodyData)
  else
    let responseBody :=
      match bodyData with
      | some (.obj m) => m
      | some v => [("data", v)]
      | none => [("data", JsonValue.null)]
    .ok { statusCode := res.status, headers := headers, body := responseBody }

/-- The tail of `executeRequest` as a function of the HTTP outcome: a
transport failure from `client.Do` propagates as a transport error
(line 515–518); a completed call is processed by `processResponse`. -/
def performCall (r : Except String HttpResult) : Except ExecError GoResponse :=
  match r with
  | .error msg => .error (.transport ("request failed: " ++ msg))
  | .ok res => processResponse res

def isSuccessOutcome : Except ExecError GoResponse → Bool
  | .ok _ => true
  | .error _ => false

/-! ## Settings handling (`client.go`, `handleSettings`, lines 140–226)

The component state relevant to selection handling, and the environment
supplying the results of the discovery fetches (`discoverServices`,
`discoverMethods`); `none` models a failed fetch, which the handler logs
and swallows.  The schema rebuild at the end of `handleSettings` (lines
202–223) only writes the `requestSchema`/`responseSchema` fields, which
are not part of the selection state modelled here.
-/

structure EnumState where
  value : String
  options : List String
  labels : List String

structure CompState where
  serviceSel : EnumState
  methodSel : EnumState
  enableErrorPort : Bool
  servicesAvailable : List String
  servicesLabels : List String
  methodsAvailable : List String
  methodsLabels : List String

structure SettingsIn where
  service : String
  method : String
  enableErrorPort : Bool

structure DiscoveryEnv where
  services : Option (List (String × String))
  methodsFor : String → Option (List (String × String))

/-- The method list obtained by `discoverMethods` for a service: the
fetched full names on success, the cleared (empty) list when the fetch
fails. -/
def fetchedMethodIds (env : DiscoveryEnv) (svc : String) : List String :=
  match env.methodsFor svc with
  | some ms => ms.map Prod.fst
  | none => []

def fetchedMethodLabels (env : DiscoveryEnv) (svc : String) : List String :=
  match env.methodsFor svc with
  | some ms => ms.map Prod.snd
  | none => []

/-- `Component.handleSettings`.  Mirrors lines 146–226: discover services
when none are loaded, detect a service change against the previously
stored value, clear and refetch the method list when the service changed
(or none were loaded), reset the method selection only on a genuine
change (previous value non-empty), otherwise keep the incoming one. -/
def handleSettings (env : DiscoveryEnv) (st : CompState) (inn : SettingsIn) : CompState :=
  let sPair :=
    if st.servicesAvailable.isEmpty then
      match env.services with
      | some svcs => (svcs.map Prod.fst, svcs.map Prod.snd)
      | none => (st.servicesAvailable, st.servicesLabels)
    else (st.servicesAvailable, st.servicesLabels)
  let oldService := st.serviceSel.value
  let mPair :=
    if inn.service = "" then ([], [])
    else
      if oldService ≠ inn.service ∨ st.methodsAvailable.isEmpty then
        (fetchedMethodIds env inn.service, fetchedMethodLabels env inn.service)
      else (st.methodsAvailable, st.methodsLabels)
  let methodValue := if oldService ≠ inn.service ∧ oldService ≠ "" then "" else inn.method
  { serviceSel := ⟨inn.service, sPair.1, sPair.2⟩
    methodSel := ⟨methodValue, mPair.1, mPair.2⟩
    enableErrorPort := inn.enableErrorPort
    servicesAvailable := sPair.1
    servicesLabels := sPair.2
    methodsAvailable := mPair.1
    methodsLabels := mPair.2 }

/-! ## Concrete fixtures used to instantiate the theorems -/

/-- A pure `$ref` node (only the `$ref` field set). -/
def refNode (r : String) : GSchema :=
  .mk "" "" r "" none "" [] [] "" [] none none

/-- A plain typed leaf node. -/
def typeNode (t : String) : GSchema :=
  .mk "" t "" "" none "" [] [] "" [] none none

/-- An object node with the given properties. -/
def objNode (props : List (String × GSchema)) : GSchema :=
  .mk "" "object" "" "" none "" [] [] "" props none none

/-- A scalar method parameter with the given type and location. -/
def mkParam (t loc : String) (req : Bool) : GParameter :=
  .mk t "" loc req "" [] [] "" "" none

/-- Two mutually recursive named schemas: `A` references `B`, `B`
references `A`. -/
def exCyclicApi : API :=
  { schemas := [("A", refNode "B"), ("B", refNode "A")] }

/-- Specification with a request-body schema whose top-level property `x`
(integer) collides with a declared parameter of the same name. -/
def exApi3 : API :=
  { schemas := [("Body", objNode [("x", typeNode "integer")])] }

def exMethod3 : GMethod :=
  { id := "svc.create", path := "/create", httpMethod := "POST",
    parameters := [("x", mkParam "string" "query" true)],
    request := some { ref := "Body" } }

/-- The Sheets-style method of the spec's worked example: two path-located
parameters in the template `/v1/{spreadsheetId}/values/{range}`. -/
def exMethod4 : GMethod :=
  { id := "spreadsheets.values.get", path := "/v1/{spreadsheetId}/values/{range}",
    httpMethod := "GET",
    parameters := [("spreadsheetId", mkParam "string" "path" true),
                   ("range", mkParam "string" "path" false)] }

def exData4 : List (String × JsonValue) :=
  [("spreadsheetId", .str "S1"), ("range", .str "A1:B2")]

/-- A POST method with no declared parameters (every supplied key is a
body candidate). -/
def exMethod6 : GMethod :=
  { id := "svc.insert", path := "/insert", httpMethod := "POST" }

/-- Specification whose response schema has two properties referencing
the same named schema `R`. -/
def exApi8 : API :=
  { schemas := [("R", typeNode "string"),
                ("Resp", objNode [("a", refNode "R"), ("b", refNode "R")])] }

def exMethod8 : GMethod :=
  { id := "svc.get", path := "/get", httpMethod := "GET",
    response := some { ref := "Resp" } }

/-- A POST method with one declared query parameter, for exercising the
undeclared-key routing. -/
def exMethod10 : GMethod :=
  { id := "svc.update", path := "/update", httpMethod := "POST",
    parameters := [("q", mkParam "string" "query" false)] }

def exEnv9 : DiscoveryEnv :=
  { services := some [("sheets:v4", "Google Sheets"), ("calendar:v3", "Calendar")],
    methodsFor := fun s =>
      if s = "calendar:v3" then some [("events.list", "events.list - Lists events")]
      else none }

def exState9 : CompState :=
  { serviceSel := ⟨"sheets:v4", ["sheets:v4"], ["Google Sheets"]⟩,
    methodSel := ⟨"spreadsheets.values.get", ["spreadsheets.values.get"], ["get"]⟩,
    enableErrorPort := false,
    servicesAvailable := ["sheets:v4"], servicesLabels := ["Google Sheets"],
    methodsAvailable := ["spreadsheets.values.get"], methodsLabels := ["get"] }

def exSettingsIn9 : SettingsIn :=
  { service := "calendar:v3", method := "spreadsheets.values.get", enableErrorPort := false }

def exSettingsIn9b : SettingsIn :=
  { service := "sheets:v4", method := "spreadsheets.values.batchGet", enableErrorPort := false }

/-! ## Helper lemmas: association-list maps -/

theorem lookupKey_setKey_self {α : Type} (m : List (String × α)) (k : String) (v : α) :
    lookupKey (setKey m k v) k = some v := by
  induction m with
  | nil => simp [setKey, lookupKey]
  | cons hd tl ih =>
      obtain ⟨k', v'⟩ := hd
      by_cases h : k' = k
      · simp [setKey, h, lookupKey]
      · simp [setKey, h, lookupKey, ih]

theorem lookupKey_setKey_ne {α : Type} (m : List (String × α)) (k k' : String) (v : α)
    (h : k' ≠ k) : lookupKey (setKey m k' v) k = lookupKey m k := by
  induction m with
  | nil => simp [setKey, lookupKey, h]
  | cons hd tl ih =>
      obtain ⟨k₀, v₀⟩ := hd
      by_cases h0 : k₀ = k'
      · subst h0
        simp [setKey, lookupKey, h]
      · simp [setKey, h0, lookupKey, ih]

theorem mem_keysOf_setKey_self {α : Type} (m : List (String × α)) (k : String) (v : α) :
    k ∈ keysOf (setKey m k v) := by
  induction m with
  | nil => simp [setKey, keysOf]
  | cons hd tl ih =>
      obtain ⟨k₀, v₀⟩ := hd
      by_cases h0 : k₀ = k
      · simp [setKey, h0, keysOf]
      · simpa [setKey, h0, keysOf] using Or.inr ih

theorem mem_keysOf_setKey {α : Type} (m : List (String × α)) (k k' : String) (v : α)
    (h : k ∈ keysOf m) : k ∈ keysOf (setKey m k' v) := by
  induction m with
  | nil => simp [keysOf] at h
  | cons hd tl ih =>
      obtain ⟨k₀, v₀⟩ := hd
      have h' : k = k₀ ∨ k ∈ keysOf tl := List.mem_cons.mp h
      by_cases h0 : k₀ = k'
      · subst h0
        simp only [setKey, if_pos rfl]
        rcases h' with h1 | h1
        · exact List.mem_cons.mpr (Or.inl h1)
        · exact List.mem_cons.mpr (Or.inr h1)
      · simp only [setKey, if_neg h0]
        rcases h' with h1 | h1
        · exact List.mem_cons.mpr (Or.inl h1)
        · exact List.mem_cons.mpr (Or.inr (ih h1))

/-! ## Helper lemmas: folds that write one map entry per list element -/

theorem foldl_setKey_keeps {α β : Type} (f : String → α → β) (l : List (String × α))
    (acc : List (String × β)) (k : String) (h : k ∈ keysOf acc) :
    k ∈ keysOf (l.foldl (fun a nv => setKey a nv.1 (f nv.1 nv.2)) acc) := by
  induction l generalizing acc with
  | nil => simpa using h
  | cons hd tl ih => exact ih _ (mem_keysOf_setKey _ _ _ _ h)

theorem foldl_setKey_mem {α β : Type} (f : String → α → β) (l : List (String × α))
    (acc : List (String × β)) (k : String) (v : α) (h : (k, v) ∈ l) :
    k ∈ keysOf (l.foldl (fun a nv => setKey a nv.1 (f nv.1 nv.2)) acc) := by
  induction l generalizing acc with
  | nil => cases h
  | cons hd tl ih =>
      rcases List.mem_cons.mp h with h1 | h1
      · subst h1
        exact foldl_setKey_keeps f tl _ k (mem_keysOf_setKey_self _ _ _)
      · exact ih _ h1

theorem foldl_setKey_lookup_not_mem {α β : Type} (f : String → α → β)
    (l : List (String × α)) (acc : List (String × β)) (k : String)
    (h : k ∉ keysOf l) :
    lookupKey (l.foldl (fun a nv => setKey a nv.1 (f nv.1 nv.2)) acc) k = lookupKey acc k := by
  induction l generalizing acc with
  | nil => rfl
  | cons hd tl ih =>
      have h1 : hd.1 ≠ k := by
        intro he
        exact h (List.mem_cons.mpr (Or.inl he.symm))
      have h2 : k ∉ keysOf tl := fun hm => h (List.mem_cons.mpr (Or.inr hm))
      calc lookupKey (List.foldl _ (setKey acc hd.1 (f hd.1 hd.2)) tl) k
          = lookupKey (setKey acc hd.1 (f hd.1 hd.2)) k := ih _ h2
        _ = lookupKey acc k := lookupKey_setKey_ne _ _ _ _ h1

theorem foldl_setKey_lookup {α β : Type} (f : String → α → β) (l : List (String × α))
    (acc : List (String × β)) (k : String) (v : α) (h : (k, v) ∈ l)
    (hnd : (keysOf l).Nodup) :
    lookupKey (l.foldl (fun a nv => setKey a nv.1 (f nv.1 nv.2)) acc) k = some (f k v) := by
  induction l generalizing acc with
  | nil => cases h
  | cons hd tl ih =>
      have hnd' : hd.1 ∉ keysOf tl ∧ (keysOf tl).Nodup := by
        simpa [keysOf] using hnd
      rcases List.mem_cons.mp h with h1 | h1
      · subst h1
        calc lookupKey (List.foldl _ (setKey acc k (f k v)) tl) k
            = lookupKey (setKey acc k (f k v)) k := foldl_setKey_lookup_not_mem f tl _ k hnd'.1
          _ = some (f k v) := lookupKey_setKey_self _ _ _
      · exact ih _ h1 hnd'.2

theorem foldl_required_keeps (l : List (String × GParameter)) (acc : List String)
    (n : String) (h : n ∈ acc) :
    n ∈ l.foldl (fun a nv => if nv.2.required then a ++ [nv.1] else a) acc := by
  induction l generalizing acc with
  | nil => simpa using h
  | cons hd tl ih =>
      by_cases hr : hd.2.required
      · simpa [hr] using ih _ (List.mem_append.mpr (Or.inl h))
      · simpa [hr] using ih _ h

theorem foldl_required_mem (l : List (String × GParameter)) (acc : List String)
    (n : String) (p : GParameter) (h : (n, p) ∈ l) (hr : p.required = true) :
    n ∈ l.foldl (fun a nv => if nv.2.required then a ++ [nv.1] else a) acc := by
  induction l generalizing acc with
  | nil => cases h
  | cons hd tl ih =>
      rcases List.mem_cons.mp h with h1 | h1
      · subst h1
        simpa [hr] using
          foldl_required_keeps tl _ n (List.mem_append.mpr (Or.inr (List.mem_singleton.mpr rfl)))
      · by_cases hr0 : hd.2.required
        · simpa [hr0] using ih _ h1
        · simpa [hr0] using ih _ h1

/-! ## Helper lemmas: substring occurrence and `replaceAll` -/

theorem beginsWith_self_append (p t : List Char) : beginsWith p (p ++ t) = true := by
  induction p with
  | nil => rfl
  | cons c cs ih => simp [beginsWith, ih]

theorem occursIn_self_append (p t : List Char) : occursIn p (p ++ t) = true := by
  cases p with
  | nil =>
      cases t with
      | nil => rfl
      | cons c cs => simp [occursIn, beginsWith]
  | cons c cs =>
      simp [occursIn]
      exact Or.inl (by simpa using beginsWith_self_append (c :: cs) t)

theorem occursIn_cons_of (pat : List Char) (c : Char) (t : List Char)
    (h : occursIn pat t = true) : occursIn pat (c :: t) = true := by
  simp [occursIn]
  cases t with
  | nil =>
      simp [occursIn] at h
      simp [h, beginsWith]
  | cons d ds => exact Or.inr (by simpa [occursIn] using h)

theorem occursIn_tail (pat : List Char) (c : Char) (rest : List Char)
    (h : occursIn pat (c :: rest) = true)
    (hb : beginsWith pat (c :: rest) = false) : occursIn pat rest = true := by
  simp [occursIn, hb] at h
  exact h

theorem mem_of_beginsWith (p s : List Char) (c : Char)
    (h : beginsWith p s = true) (hc : c ∈ p) : c ∈ s := by
  induction p generalizing s with
  | nil => cases hc
  | cons a as ih =>
      cases s with
      | nil => simp [beginsWith] at h
      | cons b bs =>
          simp [beginsWith] at h
          rcases List.mem_cons.mp hc with h1 | h1
          · exact List.mem_cons.mpr (Or.inl (h1.trans h.1))
          · exact List.mem_cons.mpr (Or.inr (ih bs h.2 h1))

theorem mem_of_occursIn (sub s : List Char) (c : Char)
    (h : occursIn sub s = true) (hc : c ∈ sub) : c ∈ s := by
  induction s with
  | nil =>
      simp [occursIn] at h
      subst h
      cases hc
  | cons a as ih =>
      by_cases hb : beginsWith sub (a :: as) = true
      · exact mem_of_beginsWith sub (a :: as) c hb hc
      · have := occursIn_tail sub a as h (by simpa using hb)
        exact List.mem_cons.mpr (Or.inr (ih this))

theorem replaceAllFuel_no_occur (pat repl : List Char) :
    ∀ (fuel : Nat) (s : List Char), occursIn pat s = false →
      replaceAllFuel fuel s pat repl = s := by
  intro fuel
  induction fuel with
  | zero => intro s _; rfl
  | succ n ih =>
      intro s h
      cases s with
      | nil => rfl
      | cons c rest =>
          have hb : beginsWith pat (c :: rest) = false := by
            simp [occursIn] at h
            exact h.1
          have ht : occursIn pat rest = false := by
            simp [occursIn] at h
            exact h.2
          simp [replaceAllFuel, hb, ih rest ht]

theorem replaceAll_no_occur (s pat repl : List Char) (h : occursIn pat s = false) :
    replaceAll s pat repl = s :=
  replaceAllFuel_no_occur pat repl s.length s h

theorem occursIn_repl_replaceAllFuel (pat repl : List Char) (hp : pat ≠ []) :
    ∀ (fuel : Nat) (s : List Char), s.length ≤ fuel → occursIn pat s = true →
      occursIn repl (replaceAllFuel fuel s pat repl) = true := by
  intro fuel
  induction fuel with
  | zero =>
      intro s hl h
      have : s = [] := List.length_eq_zero.mp (Nat.le_zero.mp hl)
      subst this
      simp [occursIn, List.isEmpty_iff] at h
      exact absurd h hp
  | succ n ih =>
      intro s hl h
      cases s with
      | nil =>
          simp [occursIn, List.isEmpty_iff] at h
          exact absurd h hp
      | cons c rest =>
          by_cases hb : beginsWith pat (c :: rest) = true
          · have hcond : (decide (pat ≠ []) && beginsWith pat (c :: rest)) = true := by
              simp [hb, hp]
            simp only [replaceAllFuel, hcond, if_true]
            exact occursIn_self_append repl _
          · have hb' : beginsWith pat (c :: rest) = false := by simpa using hb
            have hcond : (decide (pat ≠ []) && beginsWith pat (c :: rest)) = false := by
              simp [hb']
            simp only [replaceAllFuel, hcond, Bool.false_eq_true, if_false]
            have ht : occursIn pat rest = true := occursIn_tail pat c rest h hb'
            have hlen : rest.length ≤ n := by
              simp only [List.length_cons] at hl
              omega
            exact occursIn_cons_of repl c _ (ih rest hlen ht)

theorem occursIn_repl_replaceAll (s pat repl : List Char) (hp : pat ≠ [])
    (h : occursIn pat s = true) :
    occursIn repl (replaceAll s pat repl) = true :=
  occursIn_repl_replaceAllFuel pat repl hp s.length s (Nat.le_refl _) h

/-! ## Helper lemmas: sorted rendering and the JSON serializer -/

theorem mem_of_mem_insertByKey {α : Type} (x y : String × α) (l : List (String × α))
    (h : y ∈ insertByKey x l) : y = x ∨ y ∈ l := by
  induction l with
  | nil => simpa [insertByKey] using h
  | cons hd tl ih =>
      by_cases hc : charListLe x.1.data hd.1.data
      · simp only [insertByKey, if_pos hc] at h
        rcases List.mem_cons.mp h with h1 | h1
        · exact Or.inl h1
        · exact Or.inr h1
      · simp only [insertByKey, if_neg hc] at h
        rcases List.mem_cons.mp h with h1 | h1
        · exact Or.inr (List.mem_cons.mpr (Or.inl h1))
        · rcases ih h1 with h2 | h2
          · exact Or.inl h2
          · exact Or.inr (List.mem_cons.mpr (Or.inr h2))

theorem mem_of_mem_sortByKey {α : Type} (y : String × α) (l : List (String × α))
    (h : y ∈ sortByKey l) : y ∈ l := by
  induction l with
  | nil => simp [sortByKey] at h
  | cons hd tl ih =>
      have h' : y ∈ insertByKey hd (sortByKey tl) := h
      rcases mem_of_mem_insertByKey hd y (sortByKey tl) h' with h1 | h1
      · exact List.mem_cons.mpr (Or.inl h1)
      · exact List.mem_cons.mpr (Or.inr (ih h1))

theorem length_insertByKey {α : Type} (x : String × α) (l : List (String × α)) :
    (insertByKey x l).length = l.length + 1 := by
  induction l with
  | nil => rfl
  | cons hd tl ih =>
      by_cases hc : charListLe x.1.data hd.1.data
      · simp [insertByKey, hc]
      · simp [insertByKey, hc, ih]

theorem length_sortByKey {α : Type} (l : List (String × α)) :
    (sortByKey l).length = l.length := by
  induction l with
  | nil => rfl
  | cons hd tl ih =>
      have : sortByKey (hd :: tl) = insertByKey hd (sortByKey tl) := rfl
      rw [this, length_insertByKey, ih, List.length_cons]

theorem serializeFields_snd_quote (fs : List (String × JsonValue)) :
    ∀ p ∈ serializeFields fs, ∃ t, p.2 = '"' :: t := by
  induction fs with
  | nil => intro p h; cases h
  | cons hd tl ih =>
      intro p h
      obtain ⟨k, v⟩ := hd
      rcases List.mem_cons.mp h with h1 | h1
      · subst h1
        exact ⟨expandChars jsonEscapeCh k.data ++ ['"'] ++ ':' :: serializeVal v, by
          simp [jsonQuote]⟩
      · exact ih p h1

theorem joinWith_quote_head (sep : List Char) (l : List (String × List Char))
    (hne : l ≠ []) (hq : ∀ p ∈ l, ∃ t, p.2 = '"' :: t) :
    ∃ t, joinWith sep (l.map Prod.snd) = '"' :: t := by
  cases l with
  | nil => cases hne rfl
  | cons hd tl =>
      obtain ⟨t0, ht0⟩ := hq hd (List.mem_cons.mpr (Or.inl rfl))
      cases tl with
      | nil => exact ⟨t0, by simp [joinWith, ht0]⟩
      | cons x xs =>
          refine ⟨t0 ++ sep ++ joinWith sep ((x :: xs).map Prod.snd), ?_⟩
          simp [joinWith, ht0]

theorem serializeFields_length (fs : List (String × JsonValue)) :
    (serializeFields fs).length = fs.length := by
  induction fs with
  | nil => rfl
  | cons hd tl ih =>
      obtain ⟨k, v⟩ := hd
      simp [serializeFields, ih]

/-- The serialized body of a non-empty candidate map is never the literal
two-character object `{}`. -/
theorem jsonMarshalObj_ne_empty_braces (fs : List (String × JsonValue)) (h : fs ≠ []) :
    jsonMarshalObj fs ≠ ['{', '}'] := by
  have hlen : (sortByKey (serializeFields fs)).length = fs.length := by
    rw [length_sortByKey, serializeFields_length]
  have hne : sortByKey (serializeFields fs) ≠ [] := by
    intro h0
    apply h
    have h1 : fs.length = 0 := by rw [← hlen, h0]; rfl
    exact List.length_eq_zero.mp h1
  have hq : ∀ p ∈ sortByKey (serializeFields fs), ∃ t, p.2 = '"' :: t := by
    intro p hp
    exact serializeFields_snd_quote fs p (mem_of_mem_sortByKey p _ hp)
  obtain ⟨t, ht⟩ := joinWith_quote_head [','] (sortByKey (serializeFields fs)) hne hq
  intro hcontra
  have : jsonMarshalObj fs = '{' :: ('"' :: t) ++ ['}'] := by
    simp [jsonMarshalObj, serializeVal, ht]
  rw [this] at hcontra
  simp at hcontra

/-! ## Helper lemmas: the partition loops of `executeRequest` -/

/-- The routing condition of claim C10 as the code tests it: the key is
undeclared, or declared with a location that is neither `"path"` nor
`"query"`. -/
def notPathQueryDecl (m : GMethod) (k : String) : Bool :=
  match lookupKey m.parameters k with
  | some p => p.location ≠ "path" && p.location ≠ "query"
  | none => true

theorem stageQueryParams_keeps (m : GMethod) (data : List (String × JsonValue))
    (acc : List (String × String)) (k : String) (h : k ∈ keysOf acc) :
    k ∈ keysOf (data.foldl
      (fun acc nv =>
        match lookupKey m.parameters nv.1 with
        | some p => if p.location = "path" then acc else setKey acc nv.1 (goSprintV nv.2)
        | none => setKey acc nv.1 (goSprintV nv.2)) acc) := by
  induction data generalizing acc with
  | nil => simpa using h
  | cons hd tl ih =>
      apply ih
      cases hl : lookupKey m.parameters hd.1 with
      | some p =>
          by_cases hp : p.location = "path"
          · simpa [hl, hp] using h
          · simpa [hl, hp] using mem_keysOf_setKey _ _ _ _ h
      | none => simpa [hl] using mem_keysOf_setKey _ _ _ _ h

theorem mem_keysOf_stageQueryParams_aux (m : GMethod) (k : String) (v : JsonValue)
    (hc : notPathQueryDecl m k = true) :
    ∀ (data : List (String × JsonValue)) (acc : List (String × String)),
      (k, v) ∈ data →
      k ∈ keysOf (data.foldl
        (fun acc nv =>
          match lookupKey m.parameters nv.1 with
          | some p => if p.location = "path" then acc else setKey acc nv.1 (goSprintV nv.2)
          | none => setKey acc nv.1 (goSprintV nv.2)) acc) := by
  intro data
  induction data with
  | nil => intro acc h; cases h
  | cons hd tl ih =>
      intro acc h
      rcases List.mem_cons.mp h with h1 | h1
      · subst h1
        cases hl : lookupKey m.parameters k with
        | some p =>
            have hp : p.location ≠ "path" := by
              simp [notPathQueryDecl, hl] at hc
              exact hc.1
            simpa [hl, hp] using
              stageQueryParams_keeps m tl _ k (mem_keysOf_setKey_self _ _ _)
        | none =>
            simpa [hl] using
              stageQueryParams_keeps m tl _ k (mem_keysOf_setKey_self _ _ _)
      · cases hl : lookupKey m.parameters hd.1 with
        | some p =>
            by_cases hp : p.location = "path"
            · simpa [hl, hp] using ih _ h1
            · simpa [hl, hp] using ih _ h1
        | none => simpa [hl] using ih _ h1

theorem mem_keysOf_stageQueryParams (m : GMethod) (data : List (String × JsonValue))
    (k : String) (v : JsonValue) (h : (k, v) ∈ data)
    (hc : notPathQueryDecl m k = true) : k ∈ keysOf (stageQueryParams m data) :=
  mem_keysOf_stageQueryParams_aux m k v hc data [] h

theorem bodyCandidates_keeps (m : GMethod) (data : List (String × JsonValue))
    (acc : List (String × JsonValue)) (k : String) (h : k ∈ keysOf acc) :
    k ∈ keysOf (data.foldl
      (fun acc nv =>
        match lookupKey m.parameters nv.1 with
        | some p =>
            if p.location ≠ "path" ∧ p.location ≠ "query" then setKey acc nv.1 nv.2 else acc
        | none => setKey acc nv.1 nv.2) acc) := by
  induction data generalizing acc with
  | nil => simpa using h
  | cons hd tl ih =>
      apply ih
      cases hl : lookupKey m.parameters hd.1 with
      | some p =>
          by_cases hp : p.location ≠ "path" ∧ p.location ≠ "query"
          · simpa [hl, hp] using mem_keysOf_setKey _ _ _ _ h
          · simpa [hl, hp] using h
      | none => simpa [hl] using mem_keysOf_setKey _ _ _ _ h

theorem mem_keysOf_bodyCandidates_aux (m : GMethod) (k : String) (v : JsonValue)
    (hc : notPathQueryDecl m k = true) :
    ∀ (data : List (String × JsonValue)) (acc : List (String × JsonValue)),
      (k, v) ∈ data →
      k ∈ keysOf (data.foldl
        (fun acc nv =>
          match lookupKey m.parameters nv.1 with
          | some p =>
              if p.location ≠ "path" ∧ p.location ≠ "query" then setKey acc nv.1 nv.2 else acc
          | none => setKey acc nv.1 nv.2) acc) := by
  intro data
  induction data with
  | nil => intro acc h; cases h
  | cons hd tl ih =>
      intro acc h
      rcases List.mem_cons.mp h with h1 | h1
      · subst h1
        cases hl : lookupKey m.parameters k with
        | some p =>
            have hp : p.location ≠ "path" ∧ p.location ≠ "query" := by
              simpa [notPathQueryDecl, hl] using hc
            simpa [hl, hp] using
              bodyCandidates_keeps m tl _ k (mem_keysOf_setKey_self _ _ _)
        | none =>
            simpa [hl] using
              bodyCandidates_keeps m tl _ k (mem_keysOf_setKey_self _ _ _)
      · cases hl : lookupKey m.parameters hd.1 with
        | some p =>
            by_cases hp : p.location ≠ "path" ∧ p.location ≠ "query"
            · simpa [hl, hp] using ih _ h1
            · simpa [hl, hp] using ih _ h1
        | none => simpa [hl] using ih _ h1

theorem mem_keysOf_bodyCandidates (m : GMethod) (data : List (String × JsonValue))
    (k : String) (v : JsonValue) (h : (k, v) ∈ data)
    (hc : notPathQueryDecl m k = true) : k ∈ keysOf (bodyCandidates m data) :=
  mem_keysOf_bodyCandidates_aux m k v hc data [] h

/-! ## Helper lemma: property names survive conversion -/

theorem keysOf_convertPropsWith (f : GSchema → Nat → Visited → JSONSchema × Visited) :
    ∀ (l : List (String × GSchema)) (d : Nat) (v : Visited),
      keysOf (convertPropsWith f l d v).1 = keysOf l := by
  intro l
  induction l with
  | nil => intro d v; rfl
  | cons hd tl ih =>
      intro d v
      obtain ⟨n, p⟩ := hd
      simp only [convertPropsWith, keysOf, List.map_cons]
      have := ih d (f p d v).2
      simpa [keysOf] using this

/-! ## Claim theorems -/

/-- C1 counterexample: "converting the same input twice with a fresh
visited set yields the same result" is not a property of the program.
The visited set is threaded through `for name, prop := range
gSchema.Properties`, whose iteration order Go randomizes per range
statement, so one run of the converter on the object `{a: $ref R,
b: $ref R}` can visit `a` first (expanding `R` for `a`, collapsing `b`
to the placeholder) and another run visit `b` first (the reverse).  The
two permuted property lists below embed the same Go map — the list order
stands for the range order — and converting them yields different
results: property `b` is the bare object placeholder under one order and
a string schema under the other. -/
theorem C1_order_dependence_counterexample :
    List.Perm [("a", refNode "R"), ("b", refNode "R")]
      [("b", refNode "R"), ("a", refNode "R")] ∧
    (lookupKey (((schemaToJSONSchema exApi8
        (objNode [("a", refNode "R"), ("b", refNode "R")]) 0 []).1.properties).getD [])
      "b").map JSONSchema.typ = some (some "object") ∧
    (lookupKey (((schemaToJSONSchema exApi8
        (objNode [("b", refNode "R"), ("a", refNode "R")]) 0 []).1.properties).getD [])
      "b").map JSONSchema.typ = some (some "string") ∧
    (lookupKey (((schemaToJSONSchema exApi8
        (objNode [("a", refNode "R"), ("b", refNode "R")]) 0 []).1.properties).getD [])
      "b").map JSONSchema.typ ≠
    (lookupKey (((schemaToJSONSchema exApi8
        (objNode [("b", refNode "R"), ("a", refNode "R")]) 0 []).1.properties).getD [])
      "b").map JSONSchema.typ :=
  ⟨List.Perm.swap ("b", refNode "R") ("a", refNode "R") [],
    by decide, by decide, by decide⟩

/-- C1 amended: for every schema graph, including mutually cyclic
named-reference graphs, converting a node with the Schema Converter
starting from an empty per-pass visited set terminates and returns a
value — the conversion is a total function, accepted by structural
recursion on the depth budget that mirrors the `depth > maxDepth`
guard — and a reference name already present in the visited set is not
expanded again but resolves to the opaque-object placeholder, with the
visited set unchanged.  Repeated conversion is deterministic only
relative to a fixed iteration order of the property maps: across Go's
randomized range orders the cycle-breaking placeholder can land on
different sibling properties (see the counterexample), so the claim's
"same result twice" sentence does not hold of the program. -/
theorem C1_schema_conversion_amended (api : API) (g : GSchema) :
    (∃ r, schemaToJSONSchema api g 0 [] = r) ∧
    (∀ (visited : Visited) (d : Nat), g.ref ≠ "" → visited.contains g.ref = true →
      schemaToJSONSchema api g d visited = (placeholderObject, visited)) := by
  refine ⟨⟨_, rfl⟩, ?_⟩
  intro visited d hr hc
  unfold schemaToJSONSchema
  rcases hn : maxDepth + 2 - d with _ | k
  · rfl
  · by_cases hd : d > maxDepth
    · simp [schemaToJSONSchemaFuel, hd]
    · have hm : g.ref ∈ visited := by simpa using hc
      simp [schemaToJSONSchemaFuel, hd, hr, hm]

theorem C1_schema_conversion_amended_witness :
    (refNode "A").ref ≠ "" ∧ (["A"] : Visited).contains (refNode "A").ref = true ∧
    schemaToJSONSchema exCyclicApi (refNode "A") 3 ["A"] = (placeholderObject, ["A"]) :=
  ⟨by decide, by decide,
    (C1_schema_conversion_amended exCyclicApi (refNode "A")).2
      ["A"] 3 (by decide) (by decide)⟩

/-- C2: For every schema node and every depth beyond the fixed maximum of
10, `schemaToJSONSchema` returns the opaque-object placeholder — a bare
object-typed schema with no properties, items, enum, format or pattern —
regardless of whether the input contains a cycle, and leaves the visited
set unchanged. -/
theorem C2_depth_cutoff_placeholder (api : API) (g : GSchema) (visited : Visited)
    (d : Nat) (hd : d > 10) :
    schemaToJSONSchema api g d visited = (placeholderObject, visited) ∧
    placeholderObject.typ = some "object" ∧
    placeholderObject.properties = none ∧
    placeholderObject.items = none ∧
    placeholderObject.enum = [] ∧
    placeholderObject.format = none ∧
    placeholderObject.pattern = none := by
  refine ⟨?_, rfl, rfl, rfl, rfl, rfl, rfl⟩
  unfold schemaToJSONSchema
  rcases hn : maxDepth + 2 - d with _ | k
  · rfl
  · have hdm : d > maxDepth := by simpa [maxDepth] using hd
    simp [schemaToJSONSchemaFuel, hdm]

theorem C2_depth_cutoff_placeholder_witness :
    11 > 10 ∧
    schemaToJSONSchema exCyclicApi (objNode [("p", refNode "A")]) 11 [] =
      (placeholderObject, []) :=
  ⟨by decide,
    (C2_depth_cutoff_placeholder exCyclicApi (objNode [("p", refNode "A")]) [] 11
      (by decide)).1⟩

/-- C3 counterexample: in `BuildRequestSchema`'s merged flat property map
the request-body property overwrites a same-named parameter, because the
body loop assigns into the map after the parameter loop — parameters do
not win.  For `exMethod3` the declared parameter `x` is a string schema
while the body property `x` is an integer schema, and the merged map
holds the integer one. -/
theorem C3_parameter_precedence_counterexample :
    (lookupKey (requestProps exApi3 exMethod3) "x").map JSONSchema.typ =
      some (some "integer") ∧
    (parameterToSchema (mkParam "string" "query" true)).typ = some "string" ∧
    (lookupKey (requestProps exApi3 exMethod3) "x").map JSONSchema.typ ≠
      some ((parameterToSchema (mkParam "string" "query" true)).typ) := by
  refine ⟨by decide, by decide, by decide⟩

/-- C3 amended: `BuildRequestSchema` produces one flat property map in
which every declared parameter appears as a top-level property with its
required flag propagated into the required list, and the request body's
top-level properties (when the body reference resolves; `requestBodyProps`
is empty otherwise) are flattened one level into the same map without
being wrapped in a sub-object — but when a parameter name and a body
property name collide, the body property wins (it is assigned after the
parameters), the reverse of the precedence asserted by the claim. -/
theorem C3_request_schema_flattening_amended (api : API) (m : GMethod)
    (hndp : (keysOf m.parameters).Nodup)
    (hndb : (keysOf (requestBodyProps api m)).Nodup) :
    (∀ n p, (n, p) ∈ m.parameters → n ∈ keysOf (requestProps api m)) ∧
    (∀ n p, (n, p) ∈ m.parameters → p.required = true → n ∈ requestRequired m) ∧
    (∀ n s, (n, s) ∈ requestBodyProps api m →
      lookupKey (requestProps api m) n = some s) ∧
    (∀ n p, (n, p) ∈ m.parameters → n ∉ keysOf (requestBodyProps api m) →
      lookupKey (requestProps api m) n = some (parameterToSchema p)) := by
  refine ⟨?_, ?_, ?_, ?_⟩
  · intro n p hmem
    exact foldl_setKey_keeps (fun _ s => s) (requestBodyProps api m) _ n
      (foldl_setKey_mem (fun _ q => parameterToSchema q) m.parameters [] n p hmem)
  · intro n p hmem hreq
    exact foldl_required_mem m.parameters [] n p hmem hreq
  · intro n s hmem
    exact foldl_setKey_lookup (fun _ t => t) (requestBodyProps api m) _ n s hmem hndb
  · intro n p hmem hnot
    calc lookupKey (requestProps api m) n
        = lookupKey (requestParamProps m) n :=
          foldl_setKey_lookup_not_mem (fun _ t => t) (requestBodyProps api m) _ n hnot
      _ = some (parameterToSchema p) :=
          foldl_setKey_lookup (fun _ q => parameterToSchema q) m.parameters [] n p hmem hndp

theorem C3_request_schema_flattening_witness :
    (keysOf exMethod3.parameters).Nodup ∧
    (keysOf (requestBodyProps exApi3 exMethod3)).Nodup ∧
    "x" ∈ keysOf (requestProps exApi3 exMethod3) ∧
    "x" ∈ requestRequired exMethod3 := by
  have h := C3_request_schema_flattening_amended exApi3 exMethod3 (by decide) (by decide)
  exact ⟨by decide, by decide,
    h.1 "x" (mkParam "string" "query" true) (List.mem_singleton.mpr rfl),
    h.2.1 "x" (mkParam "string" "query" true) (List.mem_singleton.mpr rfl) rfl⟩

/-- C4 counterexample: with the spec's own inputs (template
`/v1/{spreadsheetId}/values/{range}`, `spreadsheetId="S1"`,
`range="A1:B2"`, both path-located) the substitution step of
`executeRequest` produces `/v1/S1/values/A1:B2` — Go's path-segment
escaping leaves `:` unescaped — not the `/v1/S1/values/A1%3AB2` the claim
asserts. -/
theorem C4_colon_escaping_counterexample :
    substitutePathParams (methodPathOf exMethod4).data (stagePathParams exMethod4 exData4) =
      "/v1/S1/values/A1:B2".data ∧
    "/v1/S1/values/A1:B2".data ≠ "/v1/S1/values/A1%3AB2".data :=
  ⟨by decide, by decide⟩

/-- C4 amended: for the template `/v1/{spreadsheetId}/values/{range}` with
path-located values `S1` and `A1:B2`, the substitution step produces
`/v1/S1/values/A1:B2` with no literal braces remaining; the colon stays
unescaped, since path-segment percent-encoding treats `:` as allowed. -/
theorem C4_path_substitution_amended :
    substitutePathParams (methodPathOf exMethod4).data (stagePathParams exMethod4 exData4) =
      "/v1/S1/values/A1:B2".data ∧
    '{' ∉ substitutePathParams (methodPathOf exMethod4).data (stagePathParams exMethod4 exData4) ∧
    '}' ∉ substitutePathParams (methodPathOf exMethod4).data (stagePathParams exMethod4 exData4) :=
  ⟨by decide, by decide, by decide⟩

/-- C5: when a path template contains the reserved-expansion placeholder
`{+name}` — and no `{name}` occurrence for the same name, i.e. the
template uses the reserved form for this parameter — substituting a
path-located value containing `/` inserts the raw value: the value
occurs verbatim in the substituted path, so its `/` remains unescaped.
This is the per-parameter substitution step (client.go lines 467–470),
exercised through `substitutePathParams` on the staged singleton. -/
theorem C5_reserved_expansion_raw (tmpl : List Char) (name value : String)
    (h1 : occursIn ('{' :: '+' :: (name.data ++ ['}'])) tmpl = true)
    (h2 : occursIn ('{' :: (name.data ++ ['}'])) tmpl = false)
    (h3 : '/' ∈ value.data) :
    occursIn value.data (substitutePathParams tmpl [(name, value)]) = true ∧
    '/' ∈ substitutePathParams tmpl [(name, value)] := by
  have hstep : substitutePathParams tmpl [(name, value)] =
      substOne tmpl name.data value.data := rfl
  rw [hstep]
  unfold substOne
  rw [replaceAll_no_occur tmpl _ _ h2]
  have hocc := occursIn_repl_replaceAll tmpl ('{' :: '+' :: (name.data ++ ['}']))
    value.data (by simp) h1
  exact ⟨hocc, mem_of_occursIn value.data _ '/' hocc h3⟩

theorem C5_reserved_expansion_raw_witness :
    occursIn ('{' :: '+' :: ("id".data ++ ['}'])) "/api/{+id}/x".data = true ∧
    occursIn ('{' :: ("id".data ++ ['}'])) "/api/{+id}/x".data = false ∧
    '/' ∈ "a/b".data ∧
    occursIn "a/b".data (substitutePathParams "/api/{+id}/x".data [("id", "a/b")]) = true ∧
    '/' ∈ substitutePathParams "/api/{+id}/x".data [("id", "a/b")] :=
  ⟨by decide, by decide, by decide,
    (C5_reserved_expansion_raw "/api/{+id}/x".data "id" "a/b"
      (by decide) (by decide) (by decide)).1,
    (C5_reserved_expansion_raw "/api/{+id}/x".data "id" "a/b"
      (by decide) (by decide) (by decide)).2⟩

/-- C6: for every POST/PUT/PATCH execution, an empty body-candidate set
(no supplied key outside the declared path/query locations) produces no
request body at all — in particular the literal `{}` is never the
serialized body — and a non-empty candidate set is serialized exactly as
the JSON object of those candidates. -/
theorem C6_mutating_body_omission (m : GMethod) (data : List (String × JsonValue))
    (hm : mutatingVerb m.httpMethod = true) :
    (bodyCandidates m data = [] → bodySerializedOf m data = none) ∧
    (bodyCandidates m data ≠ [] →
      bodySerializedOf m data = some (jsonMarshalObj (bodyCandidates m data))) ∧
    bodySerializedOf m data ≠ some ['{', '}'] := by
  refine ⟨?_, ?_, ?_⟩
  · intro h
    simp [bodySerializedOf, hm, h]
  · intro h
    have hne : (bodyCandidates m data).isEmpty = false := by
      cases hbc : bodyCandidates m data
      · exact absurd hbc h
      · rfl
    simp [bodySerializedOf, hm, hne]
  · by_cases hbc : (bodyCandidates m data).isEmpty
    · simp [bodySerializedOf, hm, hbc]
    · have hne : bodyCandidates m data ≠ [] := by
        cases hb : bodyCandidates m data
        · rw [hb] at hbc; exact absurd rfl hbc
        · exact List.cons_ne_nil _ _
      have hser : bodySerializedOf m data = some (jsonMarshalObj (bodyCandidates m data)) := by
        have hne' : (bodyCandidates m data).isEmpty = false := by
          cases hb : bodyCandidates m data
          · rw [hb] at hbc; exact absurd rfl hbc
          · rfl
        simp [bodySerializedOf, hm, hne']
      rw [hser]
      intro h
      exact jsonMarshalObj_ne_empty_braces _ hne (Option.some.inj h)

theorem C6_mutating_body_omission_witness :
    mutatingVerb exMethod6.httpMethod = true ∧
    bodySerializedOf exMethod6 [] = none ∧
    bodySerializedOf exMethod6 [("a", .str "b")] =
      some (jsonMarshalObj (bodyCandidates exMethod6 [("a", .str "b")])) := by
  have h0 := C6_mutating_body_omission exMethod6 [] (by decide)
  have h1 := C6_mutating_body_omission exMethod6 [("a", .str "b")] (by decide)
  exact ⟨by decide, h0.1 rfl, h1.2.1 (List.cons_ne_nil _ _)⟩

/-- C7 counterexample: a completed call with status 304 — not in the 2xx
range — is returned as a success result carrying status code 304, because
`executeRequest` only treats `StatusCode >= 400` as an error; the claim's
"no 3xx, 4xx or 5xx response is ever returned as a success result" is
false for 3xx. -/
theorem C7_non2xx_counterexample :
    isSuccessOutcome (performCall (.ok ⟨304, [], ""⟩)) = true ∧
    ¬(200 ≤ 304 ∧ 304 < 300) := by
  exact ⟨rfl, by decide⟩

/-- C7 amended: a completed HTTP call with status at or above 400 is
reported as an application-level API-status error carrying the status
code and the parsed-or-raw body — never as a success, and distinct from a
transport failure; completed calls with status below 400, including 3xx
responses, are returned as success results. -/
theorem C7_api_status_error_amended (res : HttpResult) (h : 400 ≤ res.status) :
    performCall (.ok res) = .error (.apiStatus res.status (decodeBody res.body)) ∧
    isSuccessOutcome (performCall (.ok res)) = false ∧
    (∀ msg, performCall (.ok res) ≠ performCall (.error msg)) := by
  have h1 : performCall (.ok res) = .error (.apiStatus res.status (decodeBody res.body)) := by
    simp [performCall, processResponse, h]
  refine ⟨h1, by rw [h1]; rfl, ?_⟩
  intro msg
  rw [h1]
  simp [performCall]

theorem C7_api_status_error_amended_witness :
    400 ≤ 404 ∧
    performCall (.ok ⟨404, [], "\x7b\"error\":\"not found\"\x7d"⟩) =
      .error (.apiStatus 404 (some (.obj [("error", .str "not found")]))) := by
  have h := C7_api_status_error_amended ⟨404, [], "\x7b\"error\":\"not found\"\x7d"⟩
    (by decide)
  refine ⟨by decide, ?_⟩
  rw [h.1]
  rfl

/-- C8 counterexample: `BuildResponseSchema` threads one visited set
across its whole property loop, so when two top-level properties of the
response schema reference the same named schema the second collapses to
the opaque placeholder: for `exMethod8`, property `b` of the produced
schema is a bare object placeholder, while the conversion of `b`'s own
schema (the independent reading asserted by the claim, computed by
`responsePropsIndependent`) is a string schema — the produced properties
are not the conversions of the properties. -/
theorem C8_response_props_counterexample :
    (lookupKey (responseProps exApi8 exMethod8) "b").map JSONSchema.typ =
      some (some "object") ∧
    (lookupKey (responsePropsIndependent exApi8
        (objNode [("a", refNode "R"), ("b", refNode "R")])) "b").map JSONSchema.typ =
      some (some "string") ∧
    (lookupKey (responseProps exApi8 exMethod8) "b").map JSONSchema.typ ≠
      (lookupKey (responsePropsIndependent exApi8
        (objNode [("a", refNode "R"), ("b", refNode "R")])) "b").map JSONSchema.typ :=
  ⟨by decide, by decide, by decide⟩

/-- C8 amended: a method with no declared response reference (or an empty
one) yields the informational empty-object schema — a value, never an
error — and when the declared reference resolves, the produced schema's
properties are the sequential conversions of the response schema's own
top-level properties under one visited set shared across the loop: the
property names are preserved exactly, but a reference already expanded
for an earlier sibling property collapses to the opaque placeholder, so
the properties are not independent per-property conversions. -/
theorem C8_response_schema_amended (api : API) (m : GMethod) :
    (m.response = none → BuildResponseSchema api m = responseInfoSchema) ∧
    (∀ r, m.response = some r → r.ref = "" →
      BuildResponseSchema api m = responseInfoSchema) ∧
    (∀ r rs, m.response = some r → r.ref ≠ "" → lookupKey api.schemas r.ref = some rs →
      responseProps api m = (convertPropsWith (schemaToJSONSchema api) rs.properties 0 []).1 ∧
      keysOf (responseProps api m) = keysOf rs.properties) := by
  refine ⟨?_, ?_, ?_⟩
  · intro h
    simp [BuildResponseSchema, h]
  · intro r h hr
    simp [BuildResponseSchema, h, hr]
  · intro r rs h hr hlook
    have hp : responseProps api m =
        (convertPropsWith (schemaToJSONSchema api) rs.properties 0 []).1 := by
      simp [responseProps, h, hr, hlook]
    exact ⟨hp, by rw [hp, keysOf_convertPropsWith]⟩

theorem C8_response_schema_amended_witness :
    exMethod8.response = some { ref := "Resp", parameterName := "" } ∧
    keysOf (responseProps exApi8 exMethod8) = ["a", "b"] := by
  have h := (C8_response_schema_amended exApi8 exMethod8).2.2
    { ref := "Resp", parameterName := "" }
    (objNode [("a", refNode "R"), ("b", refNode "R")]) rfl (by decide) rfl
  exact ⟨rfl, by rw [h.2]; rfl⟩

/-- C9: when the incoming service id differs from the stored one and the
stored one was non-empty (a genuine change, not initialization),
`handleSettings` resets the method selection to empty and the remembered
method option list is replaced by the freshly fetched methods of the new
service (the list is cleared first, so a failed fetch leaves it empty);
when the service id is unchanged and the stored value was non-empty, the
incoming method selection is kept. -/
theorem C9_service_change_resets_methods (env : DiscoveryEnv) (st : CompState)
    (inn : SettingsIn) :
    (inn.service ≠ st.serviceSel.value → st.serviceSel.value ≠ "" → inn.service ≠ "" →
      (handleSettings env st inn).methodSel.value = "" ∧
      (handleSettings env st inn).methodsAvailable = fetchedMethodIds env inn.service) ∧
    (inn.service = st.serviceSel.value → st.serviceSel.value ≠ "" →
      (handleSettings env st inn).methodSel.value = inn.method) := by
  constructor
  · intro hne hold hsvc
    have hchg : st.serviceSel.value ≠ inn.service := fun he => hne he.symm
    constructor
    · simp [handleSettings, hchg, hold]
    · simp [handleSettings, hsvc, hchg]
  · intro heq hold
    have hnc : ¬(st.serviceSel.value ≠ inn.service ∧ st.serviceSel.value ≠ "") := by
      intro hcontra
      exact hcontra.1 heq.symm
    simp [handleSettings, hnc]

theorem C9_service_change_resets_methods_witness :
    exSettingsIn9.service ≠ exState9.serviceSel.value ∧
    exState9.serviceSel.value ≠ "" ∧
    (handleSettings exEnv9 exState9 exSettingsIn9).methodSel.value = "" ∧
    (handleSettings exEnv9 exState9 exSettingsIn9).methodsAvailable = ["events.list"] ∧
    (handleSettings exEnv9 exState9 exSettingsIn9b).methodSel.value =
      "spreadsheets.values.batchGet" := by
  have h1 := (C9_service_change_resets_methods exEnv9 exState9 exSettingsIn9).1
    (by decide) (by decide) (by decide)
  have h2 := (C9_service_change_resets_methods exEnv9 exState9 exSettingsIn9b).2
    rfl (by decide)
  exact ⟨by decide, by decide, h1.1, by rw [h1.2]; rfl, h2⟩

/-- C10: every caller-supplied key that is not declared with location
`"path"` or `"query"` is routed to the query string — it appears in the
query map, and the assembled URL then carries `?` plus the encoded query —
and for POST/PUT/PATCH executions the same key additionally appears among
the body candidates, whose JSON serialization is the request body; such a
value is transmitted in both the query string and the body of the same
request. -/
theorem C10_unknown_params_query_and_body (api : API) (m : GMethod)
    (data : List (String × JsonValue)) (k : String) (v : JsonValue)
    (h : (k, v) ∈ data) (hc : notPathQueryDecl m k = true) :
    k ∈ keysOf (stageQueryParams m data) ∧
    fullURLOf api m data =
      (baseURLOf api).data ++
        substitutePathParams (methodPathOf m).data (stagePathParams m data) ++
        '?' :: encodeQueryValues (stageQueryParams m data) ∧
    (mutatingVerb m.httpMethod = true →
      k ∈ keysOf (bodyCandidates m data) ∧
      bodySerializedOf m data = some (jsonMarshalObj (bodyCandidates m data))) := by
  have hq := mem_keysOf_stageQueryParams m data k v h hc
  have hqne : (stageQueryParams m data).isEmpty = false := by
    cases hsq : stageQueryParams m data
    · rw [hsq] at hq; simp [keysOf] at hq
    · rfl
  refine ⟨hq, ?_, ?_⟩
  · simp [fullURLOf, hqne]
  · intro hm
    have hb := mem_keysOf_bodyCandidates m data k v h hc
    have hbne : (bodyCandidates m data).isEmpty = false := by
      cases hsb : bodyCandidates m data
      · rw [hsb] at hb; simp [keysOf] at hb
      · rfl
    exact ⟨hb, by simp [bodySerializedOf, hm, hbne]⟩

theorem C10_unknown_params_query_and_body_witness :
    ("foo", JsonValue.str "bar") ∈
      [("q", JsonValue.str "s"), ("foo", JsonValue.str "bar")] ∧
    notPathQueryDecl exMethod10 "foo" = true ∧
    "foo" ∈ keysOf (stageQueryParams exMethod10
      [("q", JsonValue.str "s"), ("foo", JsonValue.str "bar")]) ∧
    "foo" ∈ keysOf (bodyCandidates exMethod10
      [("q", JsonValue.str "s"), ("foo", JsonValue.str "bar")]) := by
  have h := C10_unknown_params_query_and_body ({} : API) exMethod10
    [("q", JsonValue.str "s"), ("foo", JsonValue.str "bar")] "foo" (JsonValue.str "bar")
    (List.mem_cons.mpr (Or.inr (List.mem_singleton.mpr rfl))) (by decide)
  exact ⟨List.mem_cons.mpr (Or.inr (List.mem_singleton.mpr rfl)), by decide,
    h.1, (h.2.2 (by decide)).1⟩
